import Mathlib

/-!
Verification of the real-time audio mixing engine and note timeline
scheduler of the piano practice program (src/main.py).

Modelling conventions.  Machine floats are modelled as rationals; Python
sets (active_audio_notes, active_visual_notes) as Finset; the dictionary
note_playback_positions as a total function with default value 0: the code
only reads it through note_playback_positions.get(note, 0), so a deleted
key is observationally the value 0, and deletion is modelled as resetting
the entry to 0.  The sample bank loaded_samples is a partial map from MIDI
note number to a decoded stereo buffer.  audio_callback iterates over a
copy of the voice set and applies the removals after the loop, and each
voice touches only its own cursor, so the set iteration order is
irrelevant and the pass is modelled per voice over a Finset.
-/

/-- A stereo audio frame: left and right channel components. -/
abbrev Frame := ℚ × ℚ

/-- A decoded audio sample: a list of stereo frames (a value of the
loaded_samples dictionary). -/
abbrev Sample := List Frame

/-- Clamp one component to [-1, 1] (np.clip(outdata, -1.0, 1.0) at the end
of audio_callback). -/
def clipQ (x : ℚ) : ℚ := max (-1) (min 1 x)

/-- Componentwise clamp of a stereo frame. -/
def clipFrame (f : Frame) : Frame := (clipQ f.1, clipQ f.2)

/-- Scale a stereo frame by a scalar (chunk * 0.5 in audio_callback). -/
def scaleFrame (a : ℚ) (f : Frame) : Frame := (a * f.1, a * f.2)

/-- The mixer's shared state: the set active_audio_notes together with the
playback-position dictionary note_playback_positions. -/
structure MixerState where
  active : Finset ℕ
  positions : ℕ → ℕ

/-- A start command for a pitch: active_audio_notes.add(note) and
note_playback_positions[note] = 0 (lines 616-620 and 636-637 of
src/main.py). -/
def startNote (n : ℕ) (mx : MixerState) : MixerState :=
  { active := insert n mx.active, positions := Function.update mx.positions n 0 }

/-- A stop command for a pitch: active_audio_notes.remove(note) if present
and deletion of its playback position (lines 624-626 and 640-642 of
src/main.py; deletion is modelled as resetting to 0). -/
def stopNote (n : ℕ) (mx : MixerState) : MixerState :=
  { active := mx.active.erase n, positions := Function.update mx.positions n 0 }

/-- The empty mixer state (both containers cleared). -/
def initMixer : MixerState := { active := ∅, positions := fun _ => 0 }

/-- Whether audio_callback keeps voice n for the next block: the voice is
marked for removal when the sample at n + 12 is missing or when
remaining_in_sample = len(sample) - pos is not positive at entry
(lines 392-403 of src/main.py). -/
def keepNote (bank : ℕ → Option Sample) (positions : ℕ → ℕ) (n : ℕ) : Bool :=
  match bank (n + 12) with
  | none => false
  | some s => decide (positions n < s.length)

/-- The playback position of voice n after one audio_callback block of fc
frames: removed voices lose their entry (modelled as 0); a kept voice
advances by frames_to_write = min(frames, remaining_in_sample)
(lines 397-410 of src/main.py). -/
def stepPos (bank : ℕ → Option Sample) (fc : ℕ) (positions : ℕ → ℕ) (n : ℕ) : ℕ :=
  match bank (n + 12) with
  | none => 0
  | some s =>
    let pos := positions n
    if s.length ≤ pos then 0 else pos + min fc (s.length - pos)

/-- Contribution of voice n to output frame i of one audio_callback block:
outdata[:frames_to_write] += sample[pos : pos + frames_to_write] * 0.5
(lines 405-409 of src/main.py). -/
def noteContrib (bank : ℕ → Option Sample) (fc : ℕ) (positions : ℕ → ℕ) (n i : ℕ) : Frame :=
  match bank (n + 12) with
  | none => (0, 0)
  | some s =>
    let pos := positions n
    if s.length ≤ pos then (0, 0)
    else if i < min fc (s.length - pos) then scaleFrame (1 / 2) (s.getD (pos + i) (0, 0))
    else (0, 0)

/-- The fc-frame output block of one audio_callback invocation: outdata is
zero-filled, every active voice adds its scaled chunk, and the whole block
is clamped to [-1, 1] (lines 387-421 of src/main.py). -/
def renderOutput (bank : ℕ → Option Sample) (fc : ℕ) (mx : MixerState) : List Frame :=
  (List.range fc).map fun i =>
    clipFrame (Finset.sum mx.active fun n => noteContrib bank fc mx.positions n i)

/-- The mixer state after one audio_callback invocation: voices whose
sample is missing or fully consumed at entry are removed, the rest advance
their cursors (lines 388-418 of src/main.py). -/
def renderState (bank : ℕ → Option Sample) (fc : ℕ) (mx : MixerState) : MixerState :=
  { active := mx.active.filter fun n => keepNote bank mx.positions n = true,
    positions := fun n =>
      if n ∈ mx.active then stepPos bank fc mx.positions n else mx.positions n }

/-- One full audio_callback invocation: the produced block together with
the successor mixer state. -/
def audio_callback (bank : ℕ → Option Sample) (fc : ℕ) (mx : MixerState) :
    List Frame × MixerState :=
  (renderOutput bank fc mx, renderState bank fc mx)

theorem clipQ_mem (x : ℚ) : -1 ≤ clipQ x ∧ clipQ x ≤ 1 := by
  constructor
  · exact le_max_left _ _
  · exact max_le (by norm_num) (min_le_left _ _)

/-- A sample bank with no samples at all. -/
def bank0 : ℕ → Option Sample := fun _ => none

/-- C1: for every render call, with any set of active voices (including
none and overlapping identical-pitch retriggers) and any voice cursors,
the produced block has exactly frame_count frames and every component of
every frame lies in [-1, 1]: each voice's frames are scaled by 0.5 and
summed, and the whole block is hard-clamped before being returned. -/
theorem audio_callback_output_clamped (bank : ℕ → Option Sample) (fc : ℕ) (mx : MixerState) :
    ((audio_callback bank fc mx).1).length = fc ∧
    ∀ f ∈ (audio_callback bank fc mx).1,
      -1 ≤ f.1 ∧ f.1 ≤ 1 ∧ -1 ≤ f.2 ∧ f.2 ≤ 1 := by
  constructor
  · simp [audio_callback, renderOutput]
  · intro f hf
    simp only [audio_callback, renderOutput, List.mem_map, List.mem_range] at hf
    obtain ⟨i, _, rfl⟩ := hf
    refine ⟨(clipQ_mem _).1, (clipQ_mem _).2, (clipQ_mem _).1, (clipQ_mem _).2⟩

/-- C1 witness: the clamping theorem applied to a concrete render call. -/
theorem audio_callback_output_clamped_witness :
    ((audio_callback bank0 1 initMixer).1).length = 1 ∧
    (-1 ≤ (((0 : ℚ), (0 : ℚ)) : Frame).1 ∧ (((0 : ℚ), (0 : ℚ)) : Frame).1 ≤ 1 ∧
      -1 ≤ (((0 : ℚ), (0 : ℚ)) : Frame).2 ∧ (((0 : ℚ), (0 : ℚ)) : Frame).2 ≤ 1) :=
  ⟨(audio_callback_output_clamped bank0 1 initMixer).1,
    (audio_callback_output_clamped bank0 1 initMixer).2 ((0 : ℚ), (0 : ℚ)) (by decide)⟩

/-- A scheduled note event as built by load_midi_file: immutable pitch and
time span, plus the two mutable trigger flags (lines 321-327 of
src/main.py). -/
structure NoteEvent where
  note : ℕ
  start_time : ℚ
  end_time : ℚ
  triggered_on : Bool
  triggered_off : Bool
  deriving DecidableEq

/-- Default event used only to totalise list indexing in statements. -/
def dummyEvent : NoteEvent := { note := 0, start_time := 0, end_time := 0,
                                triggered_on := false, triggered_off := false }

/-- The start-side flag update of the PLAYING-state trigger scan at time
t: triggered_on is set once start_time is reached (lines 634-638 of
src/main.py, restricted to the event's own fields). -/
def resolveOn (t : ℚ) (e : NoteEvent) : NoteEvent :=
  if e.triggered_on = false ∧ e.start_time ≤ t then { e with triggered_on := true } else e

/-- The stop-side flag update of the PLAYING-state trigger scan at time t:
triggered_off is set once end_time is reached (lines 639-643 of
src/main.py, restricted to the event's own fields). -/
def resolveOff (t : ℚ) (e : NoteEvent) : NoteEvent :=
  if e.triggered_off = false ∧ e.end_time ≤ t then { e with triggered_off := true } else e

/-- The flag updates applied to one event by one pass of the PLAYING-state
trigger scan at time t: the start-side update followed by the stop-side
update, in the order the code performs them (lines 632-643 of
src/main.py). -/
def resolveFlags (t : ℚ) (e : NoteEvent) : NoteEvent := resolveOff t (resolveOn t e)

/-- Accumulator threaded through the trigger scan: the mixer state and the
set midi_notes_to_hit collected for display (lines 629-645 of
src/main.py). -/
structure ResolveAcc where
  mixer : MixerState
  toHit : Finset ℕ

/-- Processing of a single event by the PLAYING-state trigger scan at time
t with live-held set held and flag midi_audio_enabled = ma (lines 632-645
of src/main.py): an untriggered event whose start_time has passed starts
its voice (when MIDI audio is on) and sets triggered_on; an untriggered
event whose end_time has passed stops its voice unless the pitch is
currently live-held, and sets triggered_off; events spanning t are
collected into the to-hit set. -/
def startStep (t : ℚ) (ma : Bool) (e : NoteEvent) (mx : MixerState) : MixerState :=
  if e.triggered_on = false ∧ e.start_time ≤ t ∧ ma = true then startNote e.note mx else mx

def stopStep (t : ℚ) (held : Finset ℕ) (e1 : NoteEvent) (mx : MixerState) : MixerState :=
  if e1.triggered_off = false ∧ e1.end_time ≤ t ∧ e1.note ∈ mx.active ∧ e1.note ∉ held then
    stopNote e1.note mx else mx

def hitStep (t : ℚ) (e : NoteEvent) (hit : Finset ℕ) : Finset ℕ :=
  if e.start_time ≤ t ∧ t < e.end_time then insert e.note hit else hit

def resolveEvent (t : ℚ) (held : Finset ℕ) (ma : Bool) (acc : ResolveAcc) (e : NoteEvent) :
    ResolveAcc × NoteEvent :=
  ({ mixer := stopStep t held (resolveOn t e) (startStep t ma e acc.mixer),
     toHit := hitStep t e acc.toHit },
    resolveOff t (resolveOn t e))

/-- One full pass of the PLAYING-state trigger scan over the event list in
order (the for-loop of lines 632-645 of src/main.py), returning the
updated event list, mixer state and to-hit set. -/
def resolveNotes (t : ℚ) (held : Finset ℕ) (ma : Bool) :
    List NoteEvent → ResolveAcc → List NoteEvent × ResolveAcc
  | [], acc => ([], acc)
  | e :: es, acc =>
    let r1 := resolveEvent t held ma acc e
    let r2 := resolveNotes t held ma es r1.1
    (r1.2 :: r2.1, r2.2)

/-- Repeated trigger scans, one per control tick, at the given sequence of
current-time values. -/
def resolveCalls (held : Finset ℕ) (ma : Bool) :
    List ℚ → List NoteEvent × ResolveAcc → List NoteEvent × ResolveAcc
  | [], p => p
  | t :: ts, p => resolveCalls held ma ts (resolveNotes t held ma p.1 p.2)

/-- The flags of one event after trigger scans at the given sequence of
times. -/
def flagsAfter (e : NoteEvent) (ts : List ℚ) : NoteEvent :=
  ts.foldl (fun a t => resolveFlags t a) e

theorem resolveOn_note (t : ℚ) (e : NoteEvent) : (resolveOn t e).note = e.note := by
  unfold resolveOn; split <;> rfl

theorem resolveOn_start_time (t : ℚ) (e : NoteEvent) :
    (resolveOn t e).start_time = e.start_time := by
  unfold resolveOn; split <;> rfl

theorem resolveOn_end_time (t : ℚ) (e : NoteEvent) :
    (resolveOn t e).end_time = e.end_time := by
  unfold resolveOn; split <;> rfl

theorem resolveOn_off (t : ℚ) (e : NoteEvent) :
    (resolveOn t e).triggered_off = e.triggered_off := by
  unfold resolveOn; split <;> rfl

theorem resolveOn_on (t : ℚ) (e : NoteEvent) :
    (resolveOn t e).triggered_on = (e.triggered_on || decide (e.start_time ≤ t)) := by
  unfold resolveOn
  rcases h : e.triggered_on with _ | _
  · by_cases hle : e.start_time ≤ t
    · rw [if_pos ⟨rfl, hle⟩]; simp [hle]
    · rw [if_neg (by simp [hle])]; simp [h, hle]
  · rw [if_neg (by simp [h])]; simp [h]

theorem resolveOff_note (t : ℚ) (e : NoteEvent) : (resolveOff t e).note = e.note := by
  unfold resolveOff; split <;> rfl

theorem resolveOff_start_time (t : ℚ) (e : NoteEvent) :
    (resolveOff t e).start_time = e.start_time := by
  unfold resolveOff; split <;> rfl

theorem resolveOff_end_time (t : ℚ) (e : NoteEvent) :
    (resolveOff t e).end_time = e.end_time := by
  unfold resolveOff; split <;> rfl

theorem resolveOff_on (t : ℚ) (e : NoteEvent) :
    (resolveOff t e).triggered_on = e.triggered_on := by
  unfold resolveOff; split <;> rfl

theorem resolveOff_off (t : ℚ) (e : NoteEvent) :
    (resolveOff t e).triggered_off = (e.triggered_off || decide (e.end_time ≤ t)) := by
  unfold resolveOff
  rcases h : e.triggered_off with _ | _
  · by_cases hle : e.end_time ≤ t
    · rw [if_pos ⟨rfl, hle⟩]; simp [hle]
    · rw [if_neg (by simp [hle])]; simp [h, hle]
  · rw [if_neg (by simp [h])]; simp [h]

theorem resolveFlags_note (t : ℚ) (e : NoteEvent) : (resolveFlags t e).note = e.note := by
  rw [resolveFlags, resolveOff_note, resolveOn_note]

theorem resolveFlags_start_time (t : ℚ) (e : NoteEvent) :
    (resolveFlags t e).start_time = e.start_time := by
  rw [resolveFlags, resolveOff_start_time, resolveOn_start_time]

theorem resolveFlags_end_time (t : ℚ) (e : NoteEvent) :
    (resolveFlags t e).end_time = e.end_time := by
  rw [resolveFlags, resolveOff_end_time, resolveOn_end_time]

theorem resolveFlags_on (t : ℚ) (e : NoteEvent) :
    (resolveFlags t e).triggered_on = (e.triggered_on || decide (e.start_time ≤ t)) := by
  rw [resolveFlags, resolveOff_on, resolveOn_on]

theorem resolveFlags_off (t : ℚ) (e : NoteEvent) :
    (resolveFlags t e).triggered_off = (e.triggered_off || decide (e.end_time ≤ t)) := by
  rw [resolveFlags, resolveOff_off, resolveOn_off, resolveOn_end_time]

theorem flagsAfter_nil (e : NoteEvent) : flagsAfter e [] = e := rfl

theorem flagsAfter_cons (e : NoteEvent) (t : ℚ) (ts : List ℚ) :
    flagsAfter e (t :: ts) = flagsAfter (resolveFlags t e) ts := rfl

theorem flagsAfter_start_time (e : NoteEvent) (ts : List ℚ) :
    (flagsAfter e ts).start_time = e.start_time := by
  induction ts generalizing e with
  | nil => rfl
  | cons t ts ih => rw [flagsAfter_cons, ih, resolveFlags_start_time]

theorem flagsAfter_end_time (e : NoteEvent) (ts : List ℚ) :
    (flagsAfter e ts).end_time = e.end_time := by
  induction ts generalizing e with
  | nil => rfl
  | cons t ts ih => rw [flagsAfter_cons, ih, resolveFlags_end_time]

theorem flagsAfter_on (e : NoteEvent) (ts : List ℚ) :
    (flagsAfter e ts).triggered_on =
      (e.triggered_on || ts.any fun t => decide (e.start_time ≤ t)) := by
  induction ts generalizing e with
  | nil => simp [flagsAfter_nil]
  | cons t ts ih =>
    rw [flagsAfter_cons, ih, resolveFlags_on, resolveFlags_start_time]
    simp [Bool.or_assoc]

theorem flagsAfter_off (e : NoteEvent) (ts : List ℚ) :
    (flagsAfter e ts).triggered_off =
      (e.triggered_off || ts.any fun t => decide (e.end_time ≤ t)) := by
  induction ts generalizing e with
  | nil => simp [flagsAfter_nil]
  | cons t ts ih =>
    rw [flagsAfter_cons, ih, resolveFlags_off, resolveFlags_end_time]
    simp [Bool.or_assoc]

theorem resolveEvent_snd (t : ℚ) (held : Finset ℕ) (ma : Bool) (acc : ResolveAcc)
    (e : NoteEvent) : (resolveEvent t held ma acc e).2 = resolveFlags t e := rfl

theorem resolveNotes_fst (t : ℚ) (held : Finset ℕ) (ma : Bool) (es : List NoteEvent) :
    ∀ acc, (resolveNotes t held ma es acc).1 = es.map (resolveFlags t) := by
  induction es with
  | nil => intro acc; rfl
  | cons e es ih =>
    intro acc
    simp only [resolveNotes, List.map_cons, resolveEvent_snd]
    exact congrArg _ (ih _)

theorem resolveCalls_fst (held : Finset ℕ) (ma : Bool) (ts : List ℚ) :
    ∀ es acc, (resolveCalls held ma ts (es, acc)).1 = es.map fun e => flagsAfter e ts := by
  induction ts with
  | nil => intro es acc; simp [resolveCalls, flagsAfter_nil]
  | cons t ts ih =>
    intro es acc
    have h1 : resolveNotes t held ma es acc =
        ((resolveNotes t held ma es acc).1, (resolveNotes t held ma es acc).2) := rfl
    simp only [resolveCalls]
    rw [h1, ih, resolveNotes_fst, List.map_map]
    rfl

theorem any_le_false_iff (x : ℚ) (l : List ℚ) :
    (l.any fun u => decide (x ≤ u)) = false ↔ ∀ u ∈ l, ¬ x ≤ u := by
  rw [← Bool.not_eq_true, List.any_eq_true]
  push_neg
  simp

theorem resolveCalls_getD (held : Finset ℕ) (ma : Bool) (ts : List ℚ) (es : List NoteEvent)
    (acc : ResolveAcc) (i : ℕ) (hi : i < es.length) :
    ((resolveCalls held ma ts (es, acc)).1).getD i dummyEvent =
      flagsAfter (es.getD i dummyEvent) ts := by
  rw [resolveCalls_fst, List.getD_eq_getElem?_getD, List.getElem?_map,
    List.getElem?_eq_getElem hi, List.getD_eq_getElem?_getD, List.getElem?_eq_getElem hi]
  rfl

theorem flagsAfter_flip_on (e : NoteEvent) (h0 : e.triggered_on = false) (ts : List ℚ)
    (j : ℕ) (hj : j < ts.length) :
    ((flagsAfter e (ts.take j)).triggered_on = false ∧
      (flagsAfter e (ts.take (j + 1))).triggered_on = true) ↔
    (e.start_time ≤ ts.getD j 0 ∧ ∀ u ∈ ts.take j, ¬ e.start_time ≤ u) := by
  rw [flagsAfter_on, flagsAfter_on, h0, Bool.false_or, Bool.false_or,
    List.take_succ, List.any_append, List.getElem?_eq_getElem hj,
    List.getD_eq_getElem?_getD, List.getElem?_eq_getElem hj, Option.getD_some,
    any_le_false_iff]
  constructor
  · rintro ⟨h1, h2⟩
    have h1b : ((ts.take j).any fun u => decide (e.start_time ≤ u)) = false :=
      (any_le_false_iff _ _).mpr h1
    rw [h1b, Bool.false_or] at h2
    simp only [Option.toList_some, List.any_cons, List.any_nil, Bool.or_false,
      decide_eq_true_eq] at h2
    exact ⟨h2, h1⟩
  · rintro ⟨h1, h2⟩
    have h1b : ((ts.take j).any fun u => decide (e.start_time ≤ u)) = false :=
      (any_le_false_iff _ _).mpr h2
    rw [h1b, Bool.false_or]
    simp only [Option.toList_some, List.any_cons, List.any_nil, Bool.or_false,
      decide_eq_true_eq]
    exact ⟨h2, h1⟩

theorem flagsAfter_flip_off (e : NoteEvent) (h0 : e.triggered_off = false) (ts : List ℚ)
    (j : ℕ) (hj : j < ts.length) :
    ((flagsAfter e (ts.take j)).triggered_off = false ∧
      (flagsAfter e (ts.take (j + 1))).triggered_off = true) ↔
    (e.end_time ≤ ts.getD j 0 ∧ ∀ u ∈ ts.take j, ¬ e.end_time ≤ u) := by
  rw [flagsAfter_off, flagsAfter_off, h0, Bool.false_or, Bool.false_or,
    List.take_succ, List.any_append, List.getElem?_eq_getElem hj,
    List.getD_eq_getElem?_getD, List.getElem?_eq_getElem hj, Option.getD_some,
    any_le_false_iff]
  constructor
  · rintro ⟨h1, h2⟩
    have h1b : ((ts.take j).any fun u => decide (e.end_time ≤ u)) = false :=
      (any_le_false_iff _ _).mpr h1
    rw [h1b, Bool.false_or] at h2
    simp only [Option.toList_some, List.any_cons, List.any_nil, Bool.or_false,
      decide_eq_true_eq] at h2
    exact ⟨h2, h1⟩
  · rintro ⟨h1, h2⟩
    have h1b : ((ts.take j).any fun u => decide (e.end_time ≤ u)) = false :=
      (any_le_false_iff _ _).mpr h2
    rw [h1b, Bool.false_or]
    simp only [Option.toList_some, List.any_cons, List.any_nil, Bool.or_false,
      decide_eq_true_eq]
    exact ⟨h2, h1⟩

/-- C2: across repeated trigger scans with monotonically increasing
current_time and initially cleared flags, event i fires its start
transition at call j exactly when call j is the first whose time has
reached the event's start_time (the flag flips from false to true there
and only there), and likewise for the stop transition at end_time; no
transition fires before its threshold is reached. -/
theorem timeline_transitions_fire_once
    (es : List NoteEvent) (acc : ResolveAcc) (held : Finset ℕ) (ma : Bool)
    (ts : List ℚ) (hmono : List.Chain' (fun a b => a ≤ b) ts)
    (hinit : ∀ e ∈ es, e.triggered_on = false ∧ e.triggered_off = false)
    (i : ℕ) (hi : i < es.length) (j : ℕ) (hj : j < ts.length) :
    ((((resolveCalls held ma (ts.take j) (es, acc)).1.getD i dummyEvent).triggered_on = false ∧
        ((resolveCalls held ma (ts.take (j + 1)) (es, acc)).1.getD i dummyEvent).triggered_on
          = true) ↔
      ((es.getD i dummyEvent).start_time ≤ ts.getD j 0 ∧
        ∀ u ∈ ts.take j, ¬ (es.getD i dummyEvent).start_time ≤ u)) ∧
    ((((resolveCalls held ma (ts.take j) (es, acc)).1.getD i dummyEvent).triggered_off = false ∧
        ((resolveCalls held ma (ts.take (j + 1)) (es, acc)).1.getD i dummyEvent).triggered_off
          = true) ↔
      ((es.getD i dummyEvent).end_time ≤ ts.getD j 0 ∧
        ∀ u ∈ ts.take j, ¬ (es.getD i dummyEvent).end_time ≤ u)) := by
  have hmem : es.getD i dummyEvent ∈ es := by
    rw [List.getD_eq_getElem?_getD, List.getElem?_eq_getElem hi]
    exact List.getElem_mem hi
  obtain ⟨hon, hoff⟩ := hinit _ hmem
  rw [resolveCalls_getD held ma (ts.take j) es acc i hi,
    resolveCalls_getD held ma (ts.take (j + 1)) es acc i hi]
  exact ⟨flagsAfter_flip_on _ hon ts j hj, flagsAfter_flip_off _ hoff ts j hj⟩

/-- A one-event list: pitch 60 sounding on [1, 2). -/
def esW : List NoteEvent :=
  [{ note := 60, start_time := 1, end_time := 2, triggered_on := false, triggered_off := false }]

/-- An empty resolve accumulator. -/
def accW : ResolveAcc := { mixer := initMixer, toHit := ∅ }

/-- Three monotone control-tick times. -/
def tsW : List ℚ := [0, 1, 2]

/-- C2 witness: the fire-once theorem applied at a concrete event list and
tick sequence. -/
theorem timeline_transitions_fire_once_witness :
    ((((resolveCalls ∅ true (tsW.take 1) (esW, accW)).1.getD 0 dummyEvent).triggered_on = false ∧
        ((resolveCalls ∅ true (tsW.take 2) (esW, accW)).1.getD 0 dummyEvent).triggered_on
          = true) ↔
      ((esW.getD 0 dummyEvent).start_time ≤ tsW.getD 1 0 ∧
        ∀ u ∈ tsW.take 1, ¬ (esW.getD 0 dummyEvent).start_time ≤ u)) ∧
    ((((resolveCalls ∅ true (tsW.take 1) (esW, accW)).1.getD 0 dummyEvent).triggered_off = false ∧
        ((resolveCalls ∅ true (tsW.take 2) (esW, accW)).1.getD 0 dummyEvent).triggered_off
          = true) ↔
      ((esW.getD 0 dummyEvent).end_time ≤ tsW.getD 1 0 ∧
        ∀ u ∈ tsW.take 1, ¬ (esW.getD 0 dummyEvent).end_time ≤ u)) :=
  timeline_transitions_fire_once esW accW ∅ true tsW
    (by norm_num [tsW, List.chain'_cons]) (by decide) 0 (by decide) 1 (by decide)

theorem startNote_active (n : ℕ) (mx : MixerState) :
    (startNote n mx).active = insert n mx.active := rfl

theorem stopNote_active (n : ℕ) (mx : MixerState) :
    (stopNote n mx).active = mx.active.erase n := rfl

theorem startStep_mem (t : ℚ) (ma : Bool) (e : NoteEvent) (mx : MixerState) (p : ℕ)
    (h : p ∈ mx.active) : p ∈ (startStep t ma e mx).active := by
  unfold startStep
  split
  · exact Finset.mem_insert_of_mem h
  · exact h

theorem stopStep_mem (t : ℚ) (held : Finset ℕ) (e1 : NoteEvent) (mx : MixerState) (p : ℕ)
    (hheld : p ∈ held) (h : p ∈ mx.active) : p ∈ (stopStep t held e1 mx).active := by
  unfold stopStep
  split
  · next hc =>
    rw [stopNote_active, Finset.mem_erase]
    refine ⟨fun hpe => hc.2.2.2 (hpe ▸ hheld), h⟩
  · exact h

theorem resolveEvent_mixer_mem (t : ℚ) (held : Finset ℕ) (ma : Bool) (acc : ResolveAcc)
    (e : NoteEvent) (p : ℕ) (hheld : p ∈ held) (h : p ∈ acc.mixer.active) :
    p ∈ (resolveEvent t held ma acc e).1.mixer.active :=
  stopStep_mem _ _ _ _ _ hheld (startStep_mem _ _ _ _ _ h)

theorem resolveNotes_mixer_mem (t : ℚ) (held : Finset ℕ) (ma : Bool) (p : ℕ)
    (hheld : p ∈ held) :
    ∀ (es : List NoteEvent) (acc : ResolveAcc), p ∈ acc.mixer.active →
      p ∈ (resolveNotes t held ma es acc).2.mixer.active := by
  intro es
  induction es with
  | nil => intro acc h; exact h
  | cons e es ih =>
    intro acc h
    exact ih _ (resolveEvent_mixer_mem t held ma acc e p hheld h)

theorem resolveNotes_getD (t : ℚ) (held : Finset ℕ) (ma : Bool) (es : List NoteEvent)
    (acc : ResolveAcc) (i : ℕ) (hi : i < es.length) :
    ((resolveNotes t held ma es acc).1).getD i dummyEvent =
      resolveFlags t (es.getD i dummyEvent) := by
  rw [resolveNotes_fst, List.getD_eq_getElem?_getD, List.getElem?_map,
    List.getElem?_eq_getElem hi, List.getD_eq_getElem?_getD, List.getElem?_eq_getElem hi]
  rfl

/-- The set user_held_notes consulted by the stop branch of the trigger
scan: active_visual_notes when user audio is enabled, else empty
(line 631 of src/main.py). -/
def heldNotes (userAudio : Bool) (live : Finset ℕ) : Finset ℕ :=
  if userAudio = true then live else ∅

/-- A live note-off for pitch p in PLAYING state: the pitch leaves the
visual (live-held) set, and when user audio is enabled its voice is
stopped (lines 621-626 of src/main.py). -/
def liveNoteOff (userAudio : Bool) (p : ℕ) (live : Finset ℕ) (mx : MixerState) :
    Finset ℕ × MixerState :=
  (live.erase p, if userAudio = true then stopNote p mx else mx)

/-- A live note-on for pitch p in PLAYING state: the pitch enters the
visual (live-held) set, and when user audio is enabled its voice is
started with cursor 0 (lines 613-620 of src/main.py). -/
def liveNoteOn (userAudio : Bool) (p : ℕ) (live : Finset ℕ) (mx : MixerState) :
    Finset ℕ × MixerState :=
  (insert p live, if userAudio = true then startNote p mx else mx)

/-- C3: when an event's end_time is reached while its pitch is still
live-held (user audio enabled), the trigger scan sets the event's
triggered_off flag but does not remove the pitch's voice; the voice is
removed by the subsequent live note-off for that pitch. -/
theorem live_sustain_precedence
    (t : ℚ) (live : Finset ℕ) (es : List NoteEvent) (acc : ResolveAcc) (ma : Bool)
    (p : ℕ) (hlive : p ∈ live) (hact : p ∈ acc.mixer.active)
    (i : ℕ) (hi : i < es.length)
    (hnote : (es.getD i dummyEvent).note = p)
    (hoff : (es.getD i dummyEvent).triggered_off = false)
    (hend : (es.getD i dummyEvent).end_time ≤ t) :
    p ∈ (resolveNotes t (heldNotes true live) ma es acc).2.mixer.active ∧
    ((resolveNotes t (heldNotes true live) ma es acc).1.getD i dummyEvent).triggered_off
      = true ∧
    p ∉ (liveNoteOff true p live
        (resolveNotes t (heldNotes true live) ma es acc).2.mixer).2.active := by
  have hheld : p ∈ heldNotes true live := by
    unfold heldNotes
    simpa using hlive
  refine ⟨resolveNotes_mixer_mem t _ ma p hheld es acc hact, ?_, ?_⟩
  · rw [resolveNotes_getD t _ ma es acc i hi, resolveFlags_off, hoff, Bool.false_or]
    simpa using hend
  · show p ∉ (stopNote p _).active
    rw [stopNote_active]
    exact Finset.not_mem_erase p _

/-- A mixer state with a single sounding voice for pitch 60. -/
def mxW : MixerState := { active := {60}, positions := fun _ => 0 }

/-- A resolve accumulator holding the single voice 60. -/
def accW2 : ResolveAcc := { mixer := mxW, toHit := ∅ }

/-- A one-event list: pitch 60 sounding on [1, 4), already started. -/
def esW2 : List NoteEvent :=
  [{ note := 60, start_time := 1, end_time := 4, triggered_on := true, triggered_off := false }]

/-- C3 witness: the live-sustain theorem applied at a concrete held pitch
and event. -/
theorem live_sustain_precedence_witness :
    60 ∈ (resolveNotes 4 (heldNotes true {60}) true esW2 accW2).2.mixer.active ∧
    ((resolveNotes 4 (heldNotes true {60}) true esW2 accW2).1.getD 0 dummyEvent).triggered_off
      = true ∧
    60 ∉ (liveNoteOff true 60 {60}
        (resolveNotes 4 (heldNotes true {60}) true esW2 accW2).2.mixer).2.active :=
  live_sustain_precedence 4 {60} esW2 accW2 true 60 (by decide) (by decide) 0 (by decide)
    (by decide) (by decide) (by decide)

/-- The PLAYING-state control variables: current_playback_time_sec,
playback_rate, paused, the loop region and the loaded note list
(src/main.py globals). -/
structure PlayState where
  time : ℚ
  rate : ℚ
  paused : Bool
  loopStart : Option ℚ
  loopEnd : Option ℚ
  notes : List NoteEvent

/-- The per-event flag reset applied on a loop wrap: events whose
start_time lies in [loop_start, loop_end) have both trigger flags cleared
(lines 574-577 of src/main.py). -/
def wrapReset (ls le : ℚ) (e : NoteEvent) : NoteEvent :=
  if ls ≤ e.start_time ∧ e.start_time < le then
    { e with triggered_on := false, triggered_off := false } else e

/-- One clock step of the PLAYING state (lines 571-579 of src/main.py):
nothing happens when paused; otherwise, if a full loop region is set and
the current time has reached loop_end, the time is set back to loop_start
and the in-loop trigger flags are cleared (with no increment on that
tick); otherwise the time advances by dt * playback_rate. -/
def clockStep (dt : ℚ) (st : PlayState) : PlayState :=
  if st.paused = true then st
  else
    match st.loopStart, st.loopEnd with
    | some ls, some le =>
      if le ≤ st.time then
        { st with time := ls, notes := st.notes.map (wrapReset ls le) }
      else { st with time := st.time + dt * st.rate }
    | some _, none => { st with time := st.time + dt * st.rate }
    | none, some _ => { st with time := st.time + dt * st.rate }
    | none, none => { st with time := st.time + dt * st.rate }

theorem getD_map_events (f : NoteEvent → NoteEvent) (es : List NoteEvent) (i : ℕ)
    (hi : i < es.length) : (es.map f).getD i dummyEvent = f (es.getD i dummyEvent) := by
  rw [List.getD_eq_getElem?_getD, List.getElem?_map, List.getElem?_eq_getElem hi,
    List.getD_eq_getElem?_getD, List.getElem?_eq_getElem hi]
  rfl

/-- C4: on a loop wrap (unpaused, full loop region, current time at or
past loop_end), the time jumps back to loop_start, exactly the events
whose start_time lies in [loop_start, loop_end) have both trigger flags
reset (all other events are unchanged), and such an in-loop event's
triggered_on flag is false after the wrap and fires again at the next
trigger scan whose time reaches its start_time. -/
theorem loop_wrap_resets_in_loop_flags
    (dt : ℚ) (st : PlayState) (ls le : ℚ)
    (hp : st.paused = false) (hls : st.loopStart = some ls) (hle : st.loopEnd = some le)
    (hwrap : le ≤ st.time) (i : ℕ) (hi : i < st.notes.length) :
    (clockStep dt st).time = ls ∧
    (clockStep dt st).notes.length = st.notes.length ∧
    ((ls ≤ (st.notes.getD i dummyEvent).start_time ∧
        (st.notes.getD i dummyEvent).start_time < le) →
      (clockStep dt st).notes.getD i dummyEvent
        = { st.notes.getD i dummyEvent with triggered_on := false, triggered_off := false }) ∧
    (¬ (ls ≤ (st.notes.getD i dummyEvent).start_time ∧
        (st.notes.getD i dummyEvent).start_time < le) →
      (clockStep dt st).notes.getD i dummyEvent = st.notes.getD i dummyEvent) ∧
    ((ls ≤ (st.notes.getD i dummyEvent).start_time ∧
        (st.notes.getD i dummyEvent).start_time < le) →
      ∀ u : ℚ, (st.notes.getD i dummyEvent).start_time ≤ u →
        ((clockStep dt st).notes.getD i dummyEvent).triggered_on = false ∧
        (resolveFlags u ((clockStep dt st).notes.getD i dummyEvent)).triggered_on = true) := by
  have hstep : clockStep dt st
      = { st with time := ls, notes := st.notes.map (wrapReset ls le) } := by
    unfold clockStep
    rw [hp, hls, hle]
    simp [hwrap]
  refine ⟨by rw [hstep], ?_, ?_, ?_, ?_⟩
  · rw [hstep]
    simp
  · intro hc
    rw [hstep]
    show (st.notes.map (wrapReset ls le)).getD i dummyEvent = _
    rw [getD_map_events _ _ _ hi, wrapReset, if_pos hc]
  · intro hc
    rw [hstep]
    show (st.notes.map (wrapReset ls le)).getD i dummyEvent = _
    rw [getD_map_events _ _ _ hi, wrapReset, if_neg hc]
  · intro hc u hu
    rw [hstep]
    show ((st.notes.map (wrapReset ls le)).getD i dummyEvent).triggered_on = false ∧ _
    rw [getD_map_events _ _ _ hi, wrapReset, if_pos hc]
    refine ⟨rfl, ?_⟩
    rw [resolveFlags_on]
    simpa using hu

/-- A PLAYING state at the end of a loop region [2, 5) holding one event
starting inside the loop. -/
def stW : PlayState :=
  { time := 5, rate := 1, paused := false, loopStart := some 2, loopEnd := some 5,
    notes := [{ note := 60, start_time := 3, end_time := 4,
                triggered_on := true, triggered_off := true }] }

/-- C4 witness: the loop-wrap theorem applied at a concrete wrapping
state. -/
theorem loop_wrap_resets_in_loop_flags_witness :
    (clockStep 1 stW).time = 2 ∧
    (clockStep 1 stW).notes.length = stW.notes.length ∧
    ((2 ≤ (stW.notes.getD 0 dummyEvent).start_time ∧
        (stW.notes.getD 0 dummyEvent).start_time < 5) →
      (clockStep 1 stW).notes.getD 0 dummyEvent
        = { stW.notes.getD 0 dummyEvent with triggered_on := false, triggered_off := false }) ∧
    (¬ (2 ≤ (stW.notes.getD 0 dummyEvent).start_time ∧
        (stW.notes.getD 0 dummyEvent).start_time < 5) →
      (clockStep 1 stW).notes.getD 0 dummyEvent = stW.notes.getD 0 dummyEvent) ∧
    ((2 ≤ (stW.notes.getD 0 dummyEvent).start_time ∧
        (stW.notes.getD 0 dummyEvent).start_time < 5) →
      ∀ u : ℚ, (stW.notes.getD 0 dummyEvent).start_time ≤ u →
        ((clockStep 1 stW).notes.getD 0 dummyEvent).triggered_on = false ∧
        (resolveFlags u ((clockStep 1 stW).notes.getD 0 dummyEvent)).triggered_on = true) :=
  loop_wrap_resets_in_loop_flags 1 stW 2 5 rfl rfl rfl (by norm_num [stW]) 0 (by decide)

/-- The transport-advance contract in the form the claim (and spec 4.3)
state it, for comparison with clockStep: first add dt * rate, then wrap if
the incremented time has reached loop_end. -/
def claimedAdvanceTime (dt : ℚ) (st : PlayState) : ℚ :=
  if st.paused = true then st.time
  else
    match st.loopStart, st.loopEnd with
    | some ls, some le =>
      if le ≤ st.time + dt * st.rate then ls else st.time + dt * st.rate
    | some _, none => st.time + dt * st.rate
    | none, some _ => st.time + dt * st.rate
    | none, none => st.time + dt * st.rate

/-- An unpaused PLAYING state inside a loop region [2, 5) at time 4. -/
def stC5 : PlayState :=
  { time := 4, rate := 1, paused := false, loopStart := some 2, loopEnd := some 5, notes := [] }

/-- C5 counterexample: with time 4, loop [2, 5) and dt * rate = 2, the
code leaves the time at 6 (wrap is checked before the increment on the
old time), whereas the claimed add-then-wrap contract requires the time
to wrap to 2. -/
theorem transport_advance_not_add_then_wrap :
    (clockStep 2 stC5).time = 6 ∧ claimedAdvanceTime 2 stC5 = 2 ∧
    (clockStep 2 stC5).time ≠ claimedAdvanceTime 2 stC5 := by
  refine ⟨?_, ?_, ?_⟩ <;> norm_num [clockStep, claimedAdvanceTime, stC5]

/-- C5 amended: when paused the tick changes nothing; otherwise, if a full
loop region is set and the pre-increment time has already reached
loop_end, the time is set to loop_start with no increment on that tick;
otherwise the time advances by dt * rate with no wrap check applied to the
incremented value. -/
theorem transport_advance (dt : ℚ) (st : PlayState) :
    (st.paused = true → clockStep dt st = st) ∧
    (st.paused = false → ∀ ls le : ℚ, st.loopStart = some ls → st.loopEnd = some le →
      le ≤ st.time → (clockStep dt st).time = ls) ∧
    (st.paused = false →
      (∀ ls le : ℚ, st.loopStart = some ls → st.loopEnd = some le → st.time < le) →
      (clockStep dt st).time = st.time + dt * st.rate) := by
  refine ⟨?_, ?_, ?_⟩
  · intro hp
    simp [clockStep, hp]
  · intro hp ls le hls hle hwrap
    unfold clockStep
    rw [hp, hls, hle]
    simp [hwrap]
  · intro hp hlt
    unfold clockStep
    rw [hp]
    rcases hls : st.loopStart with _ | ls
    · rcases hle : st.loopEnd with _ | le <;> simp
    · rcases hle : st.loopEnd with _ | le
      · simp
      · have hv := hlt ls le hls hle
        simp [not_le.mpr hv]

/-- An unpaused PLAYING state whose time has reached loop_end 5. -/
def stC5b : PlayState :=
  { time := 5, rate := 1, paused := false, loopStart := some 2, loopEnd := some 5, notes := [] }

/-- C5 witness: the amended transport theorem applied at concrete wrapping
and non-wrapping states. -/
theorem transport_advance_witness :
    (clockStep 2 stC5b).time = 2 ∧ (clockStep 2 stC5).time = stC5.time + 2 * stC5.rate :=
  ⟨(transport_advance 2 stC5b).2.1 rfl 2 5 rfl rfl (by norm_num [stC5b]),
    (transport_advance 2 stC5).2.2 rfl (by
      intro ls le h1 h2
      cases h2
      norm_num [stC5])⟩

/-- A rate key press in PLAYING state: plus or minus (lines 594-597 of
src/main.py). -/
inductive RateOp where
  | inc : RateOp
  | dec : RateOp

/-- playback_rate after one rate key: the plus keys add 0.1; the minus
keys set the rate to max(0.1, rate - 0.1) (lines 594-597 of
src/main.py). -/
def applyRateOp (r : ℚ) : RateOp → ℚ
  | RateOp.inc => r + 1 / 10
  | RateOp.dec => max (1 / 10) (r - 1 / 10)

/-- playback_rate after a sequence of rate keys, starting from the default
1.0 (line 59 of src/main.py). -/
def runRateOps (ops : List RateOp) : ℚ := ops.foldl applyRateOp 1

/-- C9: the playback rate is always at least 0.1: the default 1.0
satisfies the bound, every rate increase adds 0.1 and every rate decrease
clamps at 0.1, so each operation preserves the invariant and any sequence
of operations from the default leaves the rate at least 0.1 (in
particular strictly positive). -/
theorem playback_rate_floor :
    (∀ r : ℚ, 1 / 10 ≤ r → ∀ op : RateOp, 1 / 10 ≤ applyRateOp r op) ∧
    (∀ ops : List RateOp, 1 / 10 ≤ runRateOps ops) := by
  have hstep : ∀ r : ℚ, 1 / 10 ≤ r → ∀ op : RateOp, 1 / 10 ≤ applyRateOp r op := by
    intro r hr op
    cases op with
    | inc =>
      show 1 / 10 ≤ r + 1 / 10
      have h0 : (0 : ℚ) ≤ r := le_trans (by norm_num) hr
      linarith
    | dec => exact le_max_left _ _
  refine ⟨hstep, ?_⟩
  have hfold : ∀ (ops : List RateOp) (r : ℚ), 1 / 10 ≤ r → 1 / 10 ≤ ops.foldl applyRateOp r := by
    intro ops
    induction ops with
    | nil => intro r hr; exact hr
    | cons op ops ih => intro r hr; exact ih _ (hstep r hr op)
  intro ops
  exact hfold ops 1 (by norm_num)

/-- C9 witness: the rate floor theorem applied to a concrete rate and key
sequence. -/
theorem playback_rate_floor_witness :
    1 / 10 ≤ applyRateOp 1 RateOp.dec ∧ 1 / 10 ≤ runRateOps [RateOp.dec, RateOp.dec] :=
  ⟨playback_rate_floor.1 1 (by norm_num) RateOp.dec,
    playback_rate_floor.2 [RateOp.dec, RateOp.dec]⟩

/-- The shape of a decoded MIDI message as consumed by load_midi_file:
note_on, note_off or anything else. -/
inductive MsgType where
  | noteOn : MsgType
  | noteOff : MsgType
  | other : MsgType
  deriving DecidableEq

/-- A decoded MIDI message: type, note number, velocity and delta time
(the fields load_midi_file reads). -/
structure MidiMsg where
  mtype : MsgType
  note : ℕ
  velocity : ℕ
  time : ℚ

/-- The event-building loop of load_midi_file (lines 312-327 of
src/main.py): delta times are accumulated, a note_on with positive
velocity records the pitch's start time (and velocity, which is never
used), and a note_off — or a note_on with velocity 0 — closes a recorded
pitch into a NoteEvent with cleared trigger flags, appended in closing
order. -/
def buildNotes : List MidiMsg → ℚ → (ℕ → Option (ℚ × ℕ)) → List NoteEvent → List NoteEvent
  | [], _, _, out => out
  | m :: ms, ct, act, out =>
    let ct2 := ct + m.time
    if m.mtype = MsgType.noteOn ∧ 0 < m.velocity then
      buildNotes ms ct2 (Function.update act m.note (some (ct2, m.velocity))) out
    else if m.mtype = MsgType.noteOff ∨ (m.mtype = MsgType.noteOn ∧ m.velocity = 0) then
      match act m.note with
      | none => buildNotes ms ct2 act out
      | some si =>
        buildNotes ms ct2 (Function.update act m.note none)
          (out ++ [{ note := m.note, start_time := si.1, end_time := ct2,
                     triggered_on := false, triggered_off := false }])
    else buildNotes ms ct2 act out

/-- The Timeline state owned by the control thread: the loaded event list
and the loop region (globals midi_notes, loop_start_time, loop_end_time
of src/main.py). -/
structure TimelineState where
  notes : List NoteEvent
  loopStart : Option ℚ
  loopEnd : Option ℚ
  deriving DecidableEq

/-- load_midi_file (lines 306-333 of src/main.py): the loop region and the
note list are cleared before parsing begins; a successful parse fills the
note list from the decoded messages and returns True; a parse failure
(mido.MidiFile raising in its constructor, modelled as a missing message
list) returns False.  The previous timeline state is never consulted. -/
def load_midi_file (parsed : Option (List MidiMsg)) (prev : TimelineState) :
    Bool × TimelineState :=
  match parsed, prev with
  | none, _ => (false, { notes := [], loopStart := none, loopEnd := none })
  | some msgs, _ =>
    (true, { notes := buildNotes msgs 0 (fun _ => none) [],
             loopStart := none, loopEnd := none })

/-- A previously loaded timeline with one event and an active loop. -/
def prevT : TimelineState :=
  { notes := [{ note := 60, start_time := 0, end_time := 1,
                triggered_on := false, triggered_off := false }],
    loopStart := some 1, loopEnd := some 2 }

/-- C7 counterexample: a failed load does return False, but it does not
leave the previously loaded Timeline state unchanged — the concrete
previous timeline with one event is replaced by an empty one. -/
theorem load_failure_not_state_preserving :
    (load_midi_file none prevT).1 = false ∧ (load_midi_file none prevT).2 ≠ prevT := by
  refine ⟨rfl, ?_⟩
  decide

/-- C7 amended: a failed load returns False to the caller, but the
previous Timeline state is discarded, not preserved: the loop region and
the event list are cleared before parsing starts, so after a failed load
the Timeline is empty (it is never left half-loaded, but the previous
content is lost). -/
theorem load_failure_returns_false_and_clears (prev : TimelineState) :
    load_midi_file none prev = (false, { notes := [], loopStart := none, loopEnd := none }) :=
  rfl

theorem noteContrib_update_self (bank : ℕ → Option Sample) (fc : ℕ) (pos : ℕ → ℕ)
    (p : ℕ) (hb : bank (p + 12) = none) (q : ℕ → ℕ) (i : ℕ) :
    noteContrib bank fc q p i = (0, 0) := by
  unfold noteContrib
  rw [hb]

theorem noteContrib_update_other (bank : ℕ → Option Sample) (fc : ℕ) (pos : ℕ → ℕ)
    (p n : ℕ) (hn : n ≠ p) (i : ℕ) :
    noteContrib bank fc (Function.update pos p 0) n i = noteContrib bank fc pos n i := by
  unfold noteContrib
  rw [Function.update_noteq hn]

/-- C8 amended: a start command for a pitch whose sample lookup at
pitch + 12 finds no sample raises no error and contributes no audio to any
render output, but it does add the pitch to the active voice set; the next
render pass finds no sample, removes the pitch again and emits the same
block as if the start had never happened. -/
theorem missing_sample_start_silent (bank : ℕ → Option Sample) (fc : ℕ) (p : ℕ)
    (mx : MixerState) (hb : bank (p + 12) = none) :
    renderOutput bank fc (startNote p mx) = renderOutput bank fc mx ∧
    p ∉ (renderState bank fc (startNote p mx)).active ∧
    (renderState bank fc (startNote p mx)).active = (renderState bank fc mx).active := by
  have hcontrib : ∀ (n i : ℕ),
      noteContrib bank fc (Function.update mx.positions p 0) n i
        = noteContrib bank fc mx.positions n i := by
    intro n i
    by_cases hn : n = p
    · subst hn
      rw [noteContrib_update_self bank fc mx.positions n hb,
        noteContrib_update_self bank fc mx.positions n hb]
    · exact noteContrib_update_other bank fc mx.positions p n hn i
  have hkeep : ∀ n : ℕ, keepNote bank (Function.update mx.positions p 0) n
      = keepNote bank mx.positions n := by
    intro n
    by_cases hn : n = p
    · subst hn
      unfold keepNote
      rw [hb]
    · unfold keepNote
      rw [Function.update_noteq hn]
  have hkeepP : keepNote bank mx.positions p = false := by
    unfold keepNote
    rw [hb]
  refine ⟨?_, ?_, ?_⟩
  · unfold renderOutput startNote
    refine List.map_congr_left fun i _ => ?_
    show clipFrame (Finset.sum (insert p mx.active) fun n =>
        noteContrib bank fc (Function.update mx.positions p 0) n i) = _
    refine congrArg clipFrame ?_
    rw [Finset.sum_congr rfl fun n _ => hcontrib n i]
    refine Finset.sum_insert_of_eq_zero_if_not_mem fun _ => ?_
    rw [noteContrib_update_self bank fc mx.positions p hb]
    rfl
  · unfold renderState startNote
    simp only [Finset.mem_filter]
    rintro ⟨-, hkp⟩
    rw [hkeep p, hkeepP] at hkp
    exact Bool.false_ne_true hkp
  · unfold renderState startNote
    show Finset.filter _ (insert p mx.active) = _
    rw [Finset.filter_insert]
    rw [if_neg (by rw [hkeep p, hkeepP]; exact Bool.false_ne_true)]
    exact Finset.filter_congr fun n _ => by rw [hkeep n]

/-- A one-event list: pitch 60 sounding on [0, 1), untriggered. -/
def esC8 : List NoteEvent :=
  [{ note := 60, start_time := 0, end_time := 1, triggered_on := false, triggered_off := false }]

/-- C8 counterexample: against an empty sample bank, a start command
issued for pitch 60 by the trigger scan adds 60 to the (previously empty)
active voice set — the set does not stay unchanged. -/
theorem missing_sample_start_changes_voice_set :
    bank0 (60 + 12) = none ∧
    60 ∉ accW.mixer.active ∧
    60 ∈ (resolveNotes 0 ∅ true esC8 accW).2.mixer.active := by
  refine ⟨rfl, by decide, by decide⟩

/-- C8 witness: the amended theorem applied at a concrete sampleless
pitch. -/
theorem missing_sample_start_silent_witness :
    renderOutput bank0 1 (startNote 60 initMixer) = renderOutput bank0 1 initMixer ∧
    60 ∉ (renderState bank0 1 (startNote 60 initMixer)).active ∧
    (renderState bank0 1 (startNote 60 initMixer)).active
      = (renderState bank0 1 initMixer).active :=
  missing_sample_start_silent bank0 1 60 initMixer rfl

theorem keepNote_some (bank : ℕ → Option Sample) (pos : ℕ → ℕ) (n : ℕ) (s : Sample)
    (hb : bank (n + 12) = some s) : keepNote bank pos n = decide (pos n < s.length) := by
  unfold keepNote
  rw [hb]

theorem stepPos_some (bank : ℕ → Option Sample) (fc : ℕ) (pos : ℕ → ℕ) (n : ℕ) (s : Sample)
    (hb : bank (n + 12) = some s) :
    stepPos bank fc pos n
      = if s.length ≤ pos n then 0 else pos n + min fc (s.length - pos n) := by
  unfold stepPos
  rw [hb]

theorem noteContrib_some (bank : ℕ → Option Sample) (fc : ℕ) (pos : ℕ → ℕ) (n i : ℕ)
    (s : Sample) (hb : bank (n + 12) = some s) :
    noteContrib bank fc pos n i
      = if s.length ≤ pos n then (0, 0)
        else if i < min fc (s.length - pos n) then
          scaleFrame (1 / 2) (s.getD (pos n + i) (0, 0))
        else (0, 0) := by
  unfold noteContrib
  rw [hb]

theorem renderState_mem_iff (bank : ℕ → Option Sample) (fc : ℕ) (mx : MixerState) (p : ℕ) :
    p ∈ (renderState bank fc mx).active ↔
      p ∈ mx.active ∧ keepNote bank mx.positions p = true := by
  unfold renderState
  exact Finset.mem_filter

theorem renderState_positions_mem (bank : ℕ → Option Sample) (fc : ℕ) (mx : MixerState)
    (p : ℕ) (h : p ∈ mx.active) :
    (renderState bank fc mx).positions p = stepPos bank fc mx.positions p := by
  simp [renderState, h]

theorem renderState_positions_not_mem (bank : ℕ → Option Sample) (fc : ℕ) (mx : MixerState)
    (p : ℕ) (h : p ∉ mx.active) :
    (renderState bank fc mx).positions p = mx.positions p := by
  simp [renderState, h]

theorem renderN_voice_state (bank : ℕ → Option Sample) (fc : ℕ) (p : ℕ) (s : Sample)
    (hb : bank (p + 12) = some s) (mx : MixerState) :
    ∀ k : ℕ,
      (p ∈ ((renderState bank fc)^[k] (startNote p mx)).active ∧
        ((renderState bank fc)^[k] (startNote p mx)).positions p = min (k * fc) s.length ∧
        (k = 0 ∨ (k - 1) * fc < s.length)) ∨
      (p ∉ ((renderState bank fc)^[k] (startNote p mx)).active ∧
        1 ≤ k ∧ s.length ≤ (k - 1) * fc) := by
  intro k
  induction k with
  | zero =>
    left
    refine ⟨Finset.mem_insert_self p mx.active, ?_, Or.inl rfl⟩
    show Function.update mx.positions p 0 p = min (0 * fc) s.length
    rw [Function.update_same]
    simp
  | succ k ih =>
    rw [Function.iterate_succ_apply']
    rcases ih with ⟨hmem, hpos, hk⟩ | ⟨hmem, hk1, hL⟩
    · by_cases hlt : ((renderState bank fc)^[k] (startNote p mx)).positions p < s.length
      · have hkfc : k * fc < s.length := by rw [hpos] at hlt; omega
        left
        refine ⟨?_, ?_, Or.inr (by simpa using hkfc)⟩
        · rw [renderState_mem_iff]
          exact ⟨hmem, by rw [keepNote_some bank _ p s hb]; exact decide_eq_true hlt⟩
        · rw [renderState_positions_mem bank fc _ p hmem, stepPos_some bank fc _ p s hb,
            if_neg (not_le.mpr hlt), hpos, Nat.succ_mul]
          omega
      · have hge : s.length ≤ ((renderState bank fc)^[k] (startNote p mx)).positions p :=
          not_lt.mp hlt
        right
        refine ⟨?_, Nat.succ_le_succ (Nat.zero_le k), ?_⟩
        · rw [renderState_mem_iff]
          rintro ⟨-, hkp⟩
          rw [keepNote_some bank _ p s hb] at hkp
          exact absurd (of_decide_eq_true hkp) (not_lt.mpr hge)
        · rw [hpos] at hge
          simpa using (by omega : s.length ≤ k * fc)
    · right
      refine ⟨?_, le_trans hk1 (Nat.le_succ k), ?_⟩
      · rw [renderState_mem_iff]
        rintro ⟨hmem2, -⟩
        exact hmem hmem2
      · have hmono : (k - 1) * fc ≤ k * fc := Nat.mul_le_mul_right fc (Nat.sub_le k 1)
        simpa using le_trans hL hmono

/-- A one-frame silent sample. -/
def sampleOne : Sample := [((0 : ℚ), (0 : ℚ))]

/-- A sample bank holding only the one-frame sample at MIDI note 72
(sounding pitch 60 after the +12 octave offset). -/
def bank1 : ℕ → Option Sample := fun n => if n = 72 then some sampleOne else none

/-- C6 counterexample: pitch 60 with a 1-frame sample, one render call of
1 frame: N * frame_count = sample length, yet the voice is still in the
active set after the call — removal happens only on the following call,
so "absent exactly when N * frame_count ≥ length" is false. -/
theorem voice_removal_lags_one_render :
    ¬ ((60 ∉ ((renderState bank1 1)^[1] (startNote 60 initMixer)).active) ↔
        sampleOne.length ≤ 1 * 1) := by
  decide

/-- C6 amended: after start(p) followed by N ≥ 1 render calls of
frame_count frames each (no intervening commands), the voice for p is
absent from the active set exactly when (N - 1) * frame_count ≥ L: the
cursor reaches the sample end after ceil(L / frame_count) calls, and the
voice is removed at the start of the first render call that finds no
frames remaining — one render call after full consumption, not before. -/
theorem voice_absent_iff_extra_render (bank : ℕ → Option Sample) (fc : ℕ) (p : ℕ)
    (s : Sample) (hb : bank (p + 12) = some s) (mx : MixerState) (N : ℕ) (hN : 1 ≤ N) :
    (p ∉ ((renderState bank fc)^[N] (startNote p mx)).active ↔ s.length ≤ (N - 1) * fc) := by
  rcases renderN_voice_state bank fc p s hb mx N with ⟨hmem, -, hk⟩ | ⟨hmem, -, hL⟩
  · constructor
    · intro h
      exact absurd hmem h
    · intro hL2
      rcases hk with h0 | hlt
      · omega
      · exact absurd hL2 (not_le.mpr hlt)
  · exact ⟨fun _ => hL, fun _ => hmem⟩

/-- C6 witness: the amended completion theorem applied at the concrete
one-frame sample, where the voice disappears after the second render. -/
theorem voice_absent_iff_extra_render_witness :
    (60 ∉ ((renderState bank1 1)^[2] (startNote 60 initMixer)).active ↔
      sampleOne.length ≤ (2 - 1) * 1) :=
  voice_absent_iff_extra_render bank1 1 60 sampleOne rfl initMixer 2 (by norm_num)

/-- One mixer command as issued to the shared voice state: a note start
(live note-on or timeline start), a note stop (live note-off, timeline
stop or panic for one pitch), one audio_callback render pass of a given
block size, or the full clear used by panic and state changes
(lines 384-421, 606-610, 616-626 and 636-642 of src/main.py). -/
inductive MixerCmd where
  | start : ℕ → MixerCmd
  | stop : ℕ → MixerCmd
  | render : ℕ → MixerCmd
  | clear : MixerCmd

/-- Application of one mixer command to the shared voice state. -/
def applyCmd (bank : ℕ → Option Sample) (mx : MixerState) : MixerCmd → MixerState
  | MixerCmd.start n => startNote n mx
  | MixerCmd.stop n => stopNote n mx
  | MixerCmd.render fc => renderState bank fc mx
  | MixerCmd.clear => initMixer

/-- The mixer state reached from startup by a sequence of commands. -/
def runCmds (bank : ℕ → Option Sample) (cmds : List MixerCmd) : MixerState :=
  cmds.foldl (applyCmd bank) initMixer

/-- Cursor safety: every tracked playback position lies within its
pitch's sample. -/
def cursorInv (bank : ℕ → Option Sample) (mx : MixerState) : Prop :=
  ∀ (n : ℕ) (s : Sample), bank (n + 12) = some s → mx.positions n ≤ s.length

theorem cursorInv_init (bank : ℕ → Option Sample) : cursorInv bank initMixer :=
  fun _ _ _ => Nat.zero_le _

theorem cursorInv_apply (bank : ℕ → Option Sample) (mx : MixerState)
    (h : cursorInv bank mx) (c : MixerCmd) : cursorInv bank (applyCmd bank mx c) := by
  cases c with
  | start m =>
    intro n s hb
    show Function.update mx.positions m 0 n ≤ s.length
    by_cases hn : n = m
    · subst hn
      rw [Function.update_same]
      exact Nat.zero_le _
    · rw [Function.update_noteq hn]
      exact h n s hb
  | stop m =>
    intro n s hb
    show Function.update mx.positions m 0 n ≤ s.length
    by_cases hn : n = m
    · subst hn
      rw [Function.update_same]
      exact Nat.zero_le _
    · rw [Function.update_noteq hn]
      exact h n s hb
  | render fc =>
    intro n s hb
    show (renderState bank fc mx).positions n ≤ s.length
    by_cases hmem : n ∈ mx.active
    · rw [renderState_positions_mem bank fc mx n hmem, stepPos_some bank fc mx.positions n s hb]
      split
    
      · exact Nat.zero_le _
      · next hlt => omega
    · rw [renderState_positions_not_mem bank fc mx n hmem]
      exact h n s hb
  | clear =>
    intro n s hb
    exact Nat.zero_le _

theorem cursorInv_run (bank : ℕ → Option Sample) (cmds : List MixerCmd) :
    cursorInv bank (runCmds bank cmds) := by
  unfold runCmds
  have hfold : ∀ (cs : List MixerCmd) (mx : MixerState), cursorInv bank mx →
      cursorInv bank (cs.foldl (applyCmd bank) mx) := by
    intro cs
    induction cs with
    | nil => intro mx h; exact h
    | cons c cs ih => intro mx h; exact ih _ (cursorInv_apply bank mx h c)
  exact hfold cmds initMixer (cursorInv_init bank)

/-- C10: in every mixer state reachable from startup, every voice cursor c
satisfies 0 ≤ c ≤ L (the sample length, when the pitch has a sample);
a start or retrigger resets that pitch's cursor to 0; and for an active
voice with cursor c a render pass of fc frames touches exactly the read
window [c, c + min(fc, L - c)): the whole window lies within the sample,
each window index contributes the 0.5-scaled sample frame at c + i,
indices past the window contribute nothing, and the cursor advances by
exactly min(fc, L - c) when c < L. -/
theorem mixer_cursor_invariant (bank : ℕ → Option Sample) (cmds : List MixerCmd) :
    cursorInv bank (runCmds bank cmds) ∧
    (∀ n : ℕ, (applyCmd bank (runCmds bank cmds) (MixerCmd.start n)).positions n = 0) ∧
    (∀ (fc n : ℕ) (s : Sample), bank (n + 12) = some s → n ∈ (runCmds bank cmds).active →
      (runCmds bank cmds).positions n
          + min fc (s.length - (runCmds bank cmds).positions n) ≤ s.length ∧
      (∀ i : ℕ, i < min fc (s.length - (runCmds bank cmds).positions n) →
        (runCmds bank cmds).positions n + i < s.length ∧
        noteContrib bank fc (runCmds bank cmds).positions n i
          = scaleFrame (1 / 2) (s.getD ((runCmds bank cmds).positions n + i) (0, 0))) ∧
      (∀ i : ℕ, min fc (s.length - (runCmds bank cmds).positions n) ≤ i →
        noteContrib bank fc (runCmds bank cmds).positions n i = (0, 0)) ∧
      ((runCmds bank cmds).positions n < s.length →
        (renderState bank fc (runCmds bank cmds)).positions n
          = (runCmds bank cmds).positions n
              + min fc (s.length - (runCmds bank cmds).positions n))) := by
  have hinv : cursorInv bank (runCmds bank cmds) := cursorInv_run bank cmds
  refine ⟨hinv, ?_, ?_⟩
  · intro n
    show Function.update (runCmds bank cmds).positions n 0 n = 0
    rw [Function.update_same]
  · intro fc n s hb hmem
    have hc : (runCmds bank cmds).positions n ≤ s.length := hinv n s hb
    refine ⟨by omega, ?_, ?_, ?_⟩
    · intro i hi
      refine ⟨by omega, ?_⟩
      rw [noteContrib_some bank fc _ n i s hb, if_neg (by omega), if_pos hi]
    · intro i hi
      rw [noteContrib_some bank fc _ n i s hb]
      by_cases hend : s.length ≤ (runCmds bank cmds).positions n
      · rw [if_pos hend]
      · rw [if_neg hend, if_neg (not_lt.mpr hi)]
    · intro hlt
      rw [renderState_positions_mem bank fc _ n hmem, stepPos_some bank fc _ n s hb,
        if_neg (not_le.mpr hlt)]

/-- The command sequence that starts pitch 60 from startup. -/
def cmds10 : List MixerCmd := [MixerCmd.start 60]

/-- C10 witness: the cursor-invariant theorem applied to a concrete
reachable state with one started voice. -/
theorem mixer_cursor_invariant_witness :
    (runCmds bank1 cmds10).positions 60
        + min 1 (sampleOne.length - (runCmds bank1 cmds10).positions 60) ≤ sampleOne.length ∧
    (applyCmd bank1 (runCmds bank1 cmds10) (MixerCmd.start 60)).positions 60 = 0 :=
  ⟨((mixer_cursor_invariant bank1 cmds10).2.2 1 60 sampleOne rfl (by decide)).1,
    (mixer_cursor_invariant bank1 cmds10).2.1 60⟩
